import Mathlib

/-!
Verification of the result-normalization and fuzzy-matching core of the
jiractl command-line client, as a shallow embedding of the Go source
(`src/unnamed/part_000`) in Lean 4.

Embedded components:
* the transition fuzzy matcher (`matchTransition`, `pickBestTransition`,
  `ambiguityWarning`),
* cursor-based pagination accumulation (`searchIssues`),
* the document-to-plain-text extractor (`adfToText` / `adfExtract`),
* date formatting (`formatDate`).

Modelling conventions, applied throughout:
* Go strings are modelled as Lean `String` and indexed per character.  Go
  indexes bytes of the UTF-8 encoding; on ASCII data (all concrete inputs
  used here) the two coincide, and UTF-8 byte order equals code-point
  order, so lexicographic comparison also coincides.
* `strings.ToLower` / `strings.EqualFold` are modelled with per-character
  ASCII lowering (`Char.toLower`); they agree on ASCII data.
* Go `int` is modelled as `Int` where the value can be server-supplied
  (totals), and as `Nat` for lengths and limits.
* Fallible Go functions returning `(T, error)` are modelled as
  `Except String T`.
-/

namespace Jiractl

/-! ## String helpers (models of the Go strings package functions used) -/

/-- Model of the whitespace class used by `strings.TrimSpace`
(`unicode.IsSpace` restricted to Latin-1; space classes above U+00A0 are
not exercised by this code base). -/
def isGoSpace (c : Char) : Bool :=
  c == ' ' || c == '\t' || c == '\n' || c.toNat == 0xB || c.toNat == 0xC ||
    c == '\r' || c.toNat == 0x85 || c.toNat == 0xA0

/-- Model of `strings.TrimSpace`: drop whitespace from both ends. -/
def goTrimSpace (s : String) : String :=
  String.mk (((s.data.dropWhile isGoSpace).reverse.dropWhile isGoSpace).reverse)

/-- Model of `strings.ToLower` (per-character ASCII lowering). -/
def goToLower (s : String) : String :=
  String.mk (s.data.map Char.toLower)

/-- Model of `strings.HasPrefix s p` (the Go argument order:
the second argument is the candidate leading segment). -/
def goStartsWith (s p : String) : Bool :=
  p.data.isPrefixOf s.data

/-- First index at which `needle` occurs in `hay`, if any
(0-based, per character). -/
def indexOfChars (needle : List Char) : List Char → Option Nat
  | [] => if needle.isPrefixOf [] then some 0 else none
  | c :: t =>
    if needle.isPrefixOf (c :: t) then some 0
    else (indexOfChars needle t).map (· + 1)

/-- Model of `strings.Index s sub`: 0-based position of the first
occurrence of `sub` in `s`, or -1 when absent. -/
def goIndex (s sub : String) : Int :=
  match indexOfChars sub.data s.data with
  | some n => (n : Int)
  | none => -1

/-- Model of `strings.Contains s sub`. -/
def goContainsStr (s sub : String) : Bool :=
  (indexOfChars sub.data s.data).isSome

/-- Lexicographic order on character lists by code point. -/
def charsLt : List Char → List Char → Bool
  | [], [] => false
  | [], _ :: _ => true
  | _ :: _, [] => false
  | a :: as, b :: bs =>
    if a.toNat < b.toNat then true
    else if b.toNat < a.toNat then false
    else charsLt as bs

/-- Model of the Go string comparison `a < b` (byte-wise lexicographic on
the UTF-8 encoding; UTF-8 byte order coincides with code-point order, so
the per-character comparison is equivalent). -/
def goStrLt (a b : String) : Bool :=
  charsLt a.data b.data

/-- One hexadecimal digit (lower case), used by the `\x` escape form. -/
def hexDigitChar (n : Nat) : Char :=
  if n < 10 then Char.ofNat (48 + n) else Char.ofNat (87 + n)

/-- Per-character model of Go `strconv.Quote` (the `%q` format verb):
double quote and backslash are backslash-escaped, printable ASCII passes
through, the standard control escapes apply, remaining ASCII bytes use the
`\x` form.  Non-ASCII printable runes pass through as in Go; Go escapes
unprintable non-ASCII runes (`\u` form), which no string in this
development contains. -/
def goQuoteChar (c : Char) : String :=
  if c == '"' then "\\\""
  else if c == '\\' then "\\\\"
  else if 0x20 ≤ c.toNat && c.toNat ≤ 0x7e then String.singleton c
  else if c == '\n' then "\\n"
  else if c == '\t' then "\\t"
  else if c == '\r' then "\\r"
  else if c.toNat == 0x7 then "\\a"
  else if c.toNat == 0x8 then "\\b"
  else if c.toNat == 0xC then "\\f"
  else if c.toNat == 0xB then "\\v"
  else if c.toNat < 0x80 then
    "\\x" ++ String.mk [hexDigitChar (c.toNat / 16), hexDigitChar (c.toNat % 16)]
  else String.singleton c

/-- Model of Go `strconv.Quote` / the `%q` verb of `fmt`. -/
def goQuote (s : String) : String :=
  "\"" ++ String.join (s.data.map goQuoteChar) ++ "\""

/-- A character that `%q` reproduces verbatim: printable ASCII other than
the double quote and the backslash. -/
def plainChar (c : Char) : Bool :=
  0x20 ≤ c.toNat && c.toNat ≤ 0x7e && !(c == '"') && !(c == '\\')

/-! ## Data model: transitions and match results -/

/-- Go struct `JiraNameField`. -/
structure JiraNameField where
  Name : String
deriving DecidableEq

/-- Go struct `JiraTransition` (fields `ID`, `Name`, `To`). -/
structure JiraTransition where
  ID : String
  Name : String
  To : Option JiraNameField
deriving DecidableEq

/-- The triple of non-error results of Go `matchTransition`
`(JiraTransition, string, string)`: the selected transition, the tier tag
(`matchedBy`), and the ambiguity warning. -/
structure MatchResult where
  transition : JiraTransition
  matchedBy : String
  warning : String
deriving DecidableEq

deriving instance DecidableEq for Except

/-! ## The transition matcher -/

/-- The comparator of the `sort.Slice` call inside `pickBestTransition`:
ascending name length, then lowercase name, then raw id. -/
def pickLt (a b : JiraTransition) : Bool :=
  if a.Name.length != b.Name.length then
    decide (a.Name.length < b.Name.length)
  else if goToLower a.Name != goToLower b.Name then
    goStrLt (goToLower a.Name) (goToLower b.Name)
  else
    goStrLt a.ID b.ID

/-- The comparator of the `sort.Slice` call on the contains tier:
ascending occurrence score, then lowercase name, then name length. -/
def containsLt (a b : JiraTransition × Int) : Bool :=
  if a.2 != b.2 then decide (a.2 < b.2)
  else if goToLower a.1.Name != goToLower b.1.Name then
    goStrLt (goToLower a.1.Name) (goToLower b.1.Name)
  else decide (a.1.Name.length < b.1.Name.length)

/-- Deterministic model of Go `sort.Slice` with comparator `lt`
(insertion sort).  Go's sort is unstable but guaranteed to produce a
permutation ordered by `lt`; both comparators above are strict weak
orders, so on inputs without `lt`-ties (all concrete inputs below) the
ordered permutation is unique and this model is exact. -/
def sortBy (lt : α → α → Bool) (l : List α) : List α :=
  List.insertionSort (fun a b => lt a b = true) l

/-- Go `pickBestTransition`: a single candidate is returned directly,
otherwise a copy is sorted with `pickLt` and the first element returned.
Go panics on an empty slice (never reached: all call sites guard
non-emptiness); the model returns a zero value there. -/
def pickBestTransition (candidates : List JiraTransition) : JiraTransition :=
  match candidates with
  | [c] => c
  | cs => (sortBy pickLt cs).headD ⟨"", "", none⟩

/-- Go `ambiguityWarning`: empty for at most one candidate, otherwise the
`fmt.Sprintf` text with the query, all candidate names comma-joined, and
the selected name (query and selected name rendered with `%q`). -/
def ambiguityWarning (query : String) (candidates : List JiraTransition)
    (selected : JiraTransition) : String :=
  if candidates.length ≤ 1 then ""
  else
    "status " ++ goQuote query ++ " matched multiple transitions (" ++
      String.intercalate ", " (candidates.map JiraTransition.Name) ++
      "); using " ++ goQuote selected.Name

/-- The collection loop of `matchTransition`: classify every transition
into the exact, prefix-tier, or contains tier (first matching case of the
Go `switch` wins), preserving input order; contains-tier entries carry
their `strings.Index` score. -/
def collectTiers (queryLower : String) :
    List JiraTransition →
      List JiraTransition × List JiraTransition × List (JiraTransition × Int)
  | [] => ([], [], [])
  | t :: rest =>
    let r := collectTiers queryLower rest
    let nameLower := goToLower t.Name
    if nameLower == queryLower then (t :: r.1, r.2.1, r.2.2)
    else if goStartsWith nameLower queryLower then (r.1, t :: r.2.1, r.2.2)
    else if goContainsStr nameLower queryLower then
      (r.1, r.2.1, (t, goIndex nameLower queryLower) :: r.2.2)
    else r

/-- The `NoMatch` error text of `matchTransition`. -/
def noMatchMsg (query : String) (transitions : List JiraTransition) : String :=
  "no transition matching " ++ goQuote query ++ "; available transitions: " ++
    String.intercalate ", " (transitions.map JiraTransition.Name)

/-- Go `matchTransition`.  `strings.EqualFold(t.Name, query)` is modelled
as equality of the lowered strings (they agree on ASCII data), which is
why the exact check reuses `queryLower`. -/
def matchTransition (transitions : List JiraTransition)
    (targetStatus : String) : Except String MatchResult :=
  let query := goTrimSpace targetStatus
  if query = "" then .error "--status is required"
  else
    let queryLower := goToLower query
    let tiers := collectTiers queryLower transitions
    if tiers.1 ≠ [] then .ok ⟨pickBestTransition tiers.1, "exact", ""⟩
    else if tiers.2.1 ≠ [] then
      let picked := pickBestTransition tiers.2.1
      .ok ⟨picked, "prefix", ambiguityWarning query tiers.2.1 picked⟩
    else if tiers.2.2 ≠ [] then
      let sorted := sortBy containsLt tiers.2.2
      let candidates := sorted.map Prod.fst
      let picked := pickBestTransition candidates
      .ok ⟨picked, "contains", ambiguityWarning query candidates picked⟩
    else .error (noMatchMsg query transitions)

/-- The candidate list of the winning tier, in the order it has just
before `pickBestTransition` is applied (collection order for the exact
and prefix tiers, score-sorted order for the contains tier); `[]` when no
tier matches. -/
def winningCandidates (transitions : List JiraTransition)
    (query : String) : List JiraTransition :=
  let tiers := collectTiers (goToLower query) transitions
  if tiers.1 ≠ [] then tiers.1
  else if tiers.2.1 ≠ [] then tiers.2.1
  else (sortBy containsLt tiers.2.2).map Prod.fst

/-! ## Pagination: `searchIssues`

The HTTP round trip is abstracted as a capability
`fetchPage : Nat → String → Except String JiraSearchResponse` taking the
`maxResults` value and the `nextPageToken` query parameter of one request
(empty token on the first call) and returning the decoded response or a
transport/decoding error, exactly the two outcomes of the Go loop body.
-/

/-- Go struct `JiraIssue`, restricted to its `Key` field: `searchIssues`
moves issues around without reading any field, so the remaining fields
cannot influence the embedded logic. -/
structure JiraIssue where
  Key : String
deriving DecidableEq

/-- Go struct `JiraSearchResponse`. -/
structure JiraSearchResponse where
  Total : Int
  Issues : List JiraIssue
  NextPageToken : String
deriving DecidableEq

/-- Go struct `SearchIssuesResult`. -/
structure SearchIssuesResult where
  Issues : List JiraIssue
  Total : Int
  HasMore : Bool
deriving DecidableEq

/-- The `for len(all) < limit` loop of `searchIssues`, carrying the
accumulator, the last reported total, and the last continuation token.
`fuel` bounds the recursion structurally; every continuing iteration
appends at least one issue (the loop breaks on an empty page), so from
`fuel = limit + 1` the zero-fuel branch is unreachable
(`searchLoop_fuel_high` below makes this precise). -/
def searchLoop (fetchPage : Nat → String → Except String JiraSearchResponse)
    (limit : Nat) :
    Nat → List JiraIssue → Int → String →
      Except String (List JiraIssue × Int × String)
  | 0, all, total, token => .ok (all, total, token)
  | fuel + 1, all, total, token =>
    if all.length < limit then
      match fetchPage (min (limit - all.length) 100) token with
      | .error e => .error e
      | .ok resp =>
        if resp.Issues.isEmpty || resp.NextPageToken == "" then
          .ok (all ++ resp.Issues, resp.Total, resp.NextPageToken)
        else
          searchLoop fetchPage limit fuel (all ++ resp.Issues) resp.Total
            resp.NextPageToken
    else .ok (all, total, token)

/-- Go `searchIssues` (HTTP abstracted as `fetchPage`): accumulate pages
until the limit is reached, the page is empty, or no continuation token
is supplied; truncate an overshoot to `limit`; report the last total and
the has-more flag.  `HasMore` is computed from `len(all)` after the
truncation `all = all[:limit]` has been applied to the same variable.
Go slicing `all[:limit]` panics for a negative limit; limits are
modelled as `Nat`. -/
def searchIssues (fetchPage : Nat → String → Except String JiraSearchResponse)
    (limit : Nat) : Except String SearchIssuesResult :=
  match searchLoop fetchPage limit (limit + 1) [] 0 "" with
  | .error e => .error e
  | .ok (all, total, token) =>
    let issues := if limit < all.length then all.take limit else all
    .ok ⟨issues, total, token != "" || decide ((issues.length : Int) < total)⟩

/-- The spec's formula for the has-more flag, written from the spec text:
"`hasMore` = (a continuation cursor is still pending) OR (accumulated
count, pre-truncation, is less than the last reported `total`)". -/
def specHasMore (pendingToken : String) (preTruncationCount : Nat)
    (total : Int) : Bool :=
  pendingToken != "" || decide ((preTruncationCount : Int) < total)

/-! ## Document text extraction: `adfToText` / `adfExtract`

The Go code walks a decoded JSON value (`any` / `map[string]any`).  The
extractor reads exactly three fields of an object: `text` asserted to
`string`, `content` asserted to `[]any`, and `type` asserted to `string`;
a failed assertion behaves like an absent field.  The embedding therefore
represents an object by those three projections (`none` covering both an
absent field and one of the wrong dynamic type), and any other JSON value
by `vstr` (a string) or `vother` (nil, numbers, booleans).  Mutual
inductives stand in for `Option (List _)` nesting. -/

mutual
inductive AdfVal where
  | vstr : String → AdfVal
  | vobj : Option String → Option String → AdfContent → AdfVal
  | vother : AdfVal
deriving DecidableEq

inductive AdfContent where
  | missing : AdfContent
  | arr : AdfList → AdfContent
deriving DecidableEq

inductive AdfList where
  | anil : AdfList
  | acons : AdfVal → AdfList → AdfList
deriving DecidableEq
end

/-- The `vobj` constructor in field order: `type`, `text`, `content`. -/
def AdfVal.typeOf : AdfVal → Option String
  | .vobj ty _ _ => ty
  | _ => none

/-- Whether `AdfList.anil`. -/
def AdfList.isNil : AdfList → Bool
  | .anil => true
  | .acons _ _ => false

/-- The block-level type check of `adfExtract` (the newline-separator
condition between consecutive children); a child without a string `type`
field yields `childType == ""`, which is not block-level. -/
def isBlockType (ty : Option String) : Bool :=
  match ty with
  | some t =>
    t == "paragraph" || t == "heading" || t == "bulletList" ||
      t == "orderedList" || t == "blockquote" || t == "codeBlock" ||
      t == "mediaSingle" || t == "rule"
  | none => false

mutual
/-- Go `adfExtract` on one object node (arguments: the `type`, `text` and
`content` projections): write the node text, then, if `content` is an
array, each child with block separators, then the `listItem` trailing
newline.  When `content` is absent or not an array the function returns
right after the text, skipping the `listItem` newline. -/
def adfExtract (ty : Option String) (tx : Option String) :
    AdfContent → String
  | .missing => tx.getD ""
  | .arr children =>
    tx.getD "" ++ adfExtractList children ++
      (if ty == some "listItem" then "\n" else "")

/-- The child loop of `adfExtract`: each child followed, when it is a
block-level object and not in last position, by a separator newline. -/
def adfExtractList : AdfList → String
  | .anil => ""
  | .acons c rest => adfExtractChild c (!rest.isNil) ++ adfExtractList rest

/-- One iteration of the child loop: non-object children are skipped
(`continue`), object children are extracted and may get a separator. -/
def adfExtractChild : AdfVal → Bool → String
  | .vobj ty tx ct, notLast =>
    adfExtract ty tx ct ++
      (if isBlockType ty && notLast then "\n" else "")
  | .vstr _, _ => ""
  | .vother, _ => ""
end

/-- Go `adfToText`: nil and non-(string/object) values give `""`, a plain
string is returned verbatim, an object is extracted and trimmed. -/
def adfToText : Option AdfVal → String
  | none => ""
  | some (.vstr s) => s
  | some (.vobj ty tx ct) => goTrimSpace (adfExtract ty tx ct)
  | some .vother => ""

/-! ## Date formatting: `formatDate`

`time.Parse` with the two layouts `2006-01-02T15:04:05.000-0700` (fixed
three-digit fraction) and `2006-01-02T15:04:05.999-0700` (optional
variable fraction of at most nine digits) is modelled as a character
parser over the same grammar, including Go's range validation of month,
day (against the month length with leap years), hour, minute and second.
Go accepts either `.` or `,` before fractional digits.  The numeric zone
offset (sign and four digits) is consumed without a range check, as in
Go.  `t.Format("2006-01-02")` renders the parsed calendar date in the
parsed offset's location, i.e. the year, month and day as written. -/

/-- The decimal value of an ASCII digit, if any. -/
def digitVal : Char → Option Nat
  | c => if '0' ≤ c && c ≤ '9' then some (c.toNat - 48) else none

/-- Read exactly two digits. -/
def readNum2 : List Char → Option (Nat × List Char)
  | a :: b :: r =>
    match digitVal a, digitVal b with
    | some d1, some d2 => some (10 * d1 + d2, r)
    | _, _ => none
  | _ => none

/-- Read exactly four digits (the `2006` year field). -/
def readNum4 : List Char → Option (Nat × List Char)
  | a :: b :: c :: d :: r =>
    match digitVal a, digitVal b, digitVal c, digitVal d with
    | some d1, some d2, some d3, some d4 =>
      some (1000 * d1 + 100 * d2 + 10 * d3 + d4, r)
    | _, _, _, _ => none
  | _ => none

/-- Require one literal character. -/
def readLit (c : Char) : List Char → Option (List Char)
  | x :: r => if x == c then some r else none
  | [] => none

/-- Go leap-year rule (`time.isLeap`). -/
def isLeapYear (y : Nat) : Bool :=
  y % 4 == 0 && (y % 100 != 0 || y % 400 == 0)

/-- Go `daysIn`: length of a month. -/
def daysIn (m y : Nat) : Nat :=
  if m == 2 then (if isLeapYear y then 29 else 28)
  else if m == 4 || m == 6 || m == 9 || m == 11 then 30
  else 31

/-- Fractional-second field. `fixed3` selects the `.000` layout (a dot or
comma and exactly three digits); otherwise the `.999` layout: absent, or
a dot or comma followed by one to nine digits (Go errors out beyond nine
either directly or on the leftover digits). -/
def readFrac (fixed3 : Bool) (l : List Char) : Option (List Char) :=
  if fixed3 then
    match l with
    | c :: d1 :: d2 :: d3 :: r =>
      if (c == '.' || c == ',') && (digitVal d1).isSome &&
          (digitVal d2).isSome && (digitVal d3).isSome then some r
      else none
    | _ => none
  else
    match l with
    | c :: d :: r =>
      if (c == '.' || c == ',') && (digitVal d).isSome then
        let ds := r.takeWhile (fun x => (digitVal x).isSome)
        if ds.length + 1 > 9 then none else some (r.drop ds.length)
      else some l
    | _ => some l

/-- The numeric zone offset `-0700`: a sign and four digits. -/
def readZone : List Char → Option (List Char)
  | s :: r =>
    if s == '+' || s == '-' then
      match readNum2 r with
      | some (_, r2) =>
        match readNum2 r2 with
        | some (_, r3) => some r3
        | none => none
      | none => none
    else none
  | [] => none

/-- Model of `time.Parse` for the two accepted layouts, returning the
calendar date `(year, month, day)` on success.  The whole input must be
consumed (Go: "extra text"). -/
def parseTimestamp (fixed3 : Bool) (s : String) : Option (Nat × Nat × Nat) :=
  match readNum4 s.data with
  | none => none
  | some (year, r1) =>
    match readLit '-' r1 with
    | none => none
    | some r2 =>
      match readNum2 r2 with
      | none => none
      | some (month, r3) =>
        match readLit '-' r3 with
        | none => none
        | some r4 =>
          match readNum2 r4 with
          | none => none
          | some (day, r5) =>
            match readLit 'T' r5 with
            | none => none
            | some r6 =>
              match readNum2 r6 with
              | none => none
              | some (hour, r7) =>
                match readLit ':' r7 with
                | none => none
                | some r8 =>
                  match readNum2 r8 with
                  | none => none
                  | some (minute, r9) =>
                    match readLit ':' r9 with
                    | none => none
                    | some r10 =>
                      match readNum2 r10 with
                      | none => none
                      | some (second, r11) =>
                        match readFrac fixed3 r11 with
                        | none => none
                        | some r12 =>
                          match readZone r12 with
                          | none => none
                          | some r13 =>
                            if r13 = [] && 1 ≤ month && month ≤ 12 &&
                                1 ≤ day && day ≤ daysIn month year &&
                                hour ≤ 23 && minute ≤ 59 && second ≤ 59 then
                              some (year, month, day)
                            else none

/-- Zero-pad a number to `w` digits (`fmt`-style rendering used by
`Format("2006-01-02")`; all parsed fields fit the width). -/
def padNum (w n : Nat) : String :=
  let digits := (Nat.toDigits 10 n)
  String.mk (List.replicate (w - digits.length) '0') ++ String.mk digits

/-- `t.Format("2006-01-02")` applied to a parsed calendar date. -/
def formatYMD : Nat × Nat × Nat → String
  | (y, m, d) => padNum 4 y ++ "-" ++ padNum 2 m ++ "-" ++ padNum 2 d

/-- Go `formatDate`: empty in, empty out; try the fixed-fraction layout,
then the variable-fraction layout; on success render the calendar date;
on failure degrade to the first ten characters (Go: bytes) when the
input has at least ten, else return it unchanged. -/
def formatDate (s : String) : String :=
  if s == "" then ""
  else
    match parseTimestamp true s with
    | some ymd => formatYMD ymd
    | none =>
      match parseTimestamp false s with
      | some ymd => formatYMD ymd
      | none => if 10 ≤ s.length then String.mk (s.data.take 10) else s

/-! ## Derived definitions used in statements and concrete runs -/

/-- The condition routing a transition to the exact tier. -/
def isExactFor (qL : String) (t : JiraTransition) : Bool :=
  goToLower t.Name == qL

/-- The condition routing a transition to the middle (name-leading) tier:
not exact, and the lowered query leads the lowered name. -/
def isPfxFor (qL : String) (t : JiraTransition) : Bool :=
  !isExactFor qL t && goStartsWith (goToLower t.Name) qL

/-- The condition routing a transition to the contains tier. -/
def isContFor (qL : String) (t : JiraTransition) : Bool :=
  !isExactFor qL t && !goStartsWith (goToLower t.Name) qL &&
    goContainsStr (goToLower t.Name) qL

/-- A page source that answers every request with the same overshooting
page: two issues, total 2, no continuation token. -/
def overshootFetch : Nat → String → Except String JiraSearchResponse :=
  fun _ _ => .ok ⟨2, [⟨"ISS-1"⟩, ⟨"ISS-2"⟩], ""⟩

/-- A page source that answers every request with an empty page. -/
def emptyFetch : Nat → String → Except String JiraSearchResponse :=
  fun _ _ => .ok ⟨0, [], ""⟩

/-! ## Helper lemmas: sorting -/

theorem mem_sortBy {lt : α → α → Bool} {l : List α} {a : α} :
    a ∈ sortBy lt l ↔ a ∈ l :=
  List.mem_insertionSort _

theorem length_sortBy (lt : α → α → Bool) (l : List α) :
    (sortBy lt l).length = l.length :=
  List.length_insertionSort _ _

theorem pairwise_orderedInsert (R : α → α → Prop) (lt : α → α → Bool)
    (hT : ∀ a b c, R a b → R b c → R a c)
    (hpos : ∀ a b, lt a b = true → R a b)
    (hneg : ∀ a b, lt a b = false → R b a) (x : α) :
    ∀ l : List α, l.Pairwise R →
      (List.orderedInsert (fun a b => lt a b = true) x l).Pairwise R := by
  intro l
  induction l with
  | nil => intro _; simp [List.orderedInsert]
  | cons y ys ih =>
    intro h
    obtain ⟨hy, hys⟩ := List.pairwise_cons.mp h
    rw [List.orderedInsert]
    by_cases hxy : lt x y = true
    · rw [if_pos hxy]
      refine List.pairwise_cons.mpr ⟨?_, h⟩
      intro z hz
      rcases List.mem_cons.mp hz with rfl | hz
      · exact hpos _ _ hxy
      · exact hT _ _ _ (hpos _ _ hxy) (hy z hz)
    · rw [if_neg hxy]
      refine List.pairwise_cons.mpr ⟨?_, ih hys⟩
      intro z hz
      rcases (List.mem_orderedInsert _).mp hz with rfl | hz
      · exact hneg _ _ (Bool.eq_false_iff.mpr hxy)
      · exact hy z hz

theorem pairwise_sortBy (R : α → α → Prop) (lt : α → α → Bool)
    (hT : ∀ a b c, R a b → R b c → R a c)
    (hpos : ∀ a b, lt a b = true → R a b)
    (hneg : ∀ a b, lt a b = false → R b a) (l : List α) :
    (sortBy lt l).Pairwise R := by
  induction l with
  | nil => simp [sortBy, List.insertionSort]
  | cons x xs ih =>
    simpa [sortBy, List.insertionSort] using
      pairwise_orderedInsert R lt hT hpos hneg x _ ih

theorem sortBy_ne_nil {lt : α → α → Bool} {l : List α} (h : l ≠ []) :
    sortBy lt l ≠ [] := by
  intro hc
  apply h
  have := length_sortBy lt l
  rw [hc] at this
  exact List.length_eq_zero.mp this.symm

theorem pickBestTransition_mem :
    ∀ {cs : List JiraTransition}, cs ≠ [] → pickBestTransition cs ∈ cs := by
  intro cs h
  match cs with
  | [c] => simp [pickBestTransition]
  | a :: b :: t =>
    show (sortBy pickLt (a :: b :: t)).headD ⟨"", "", none⟩ ∈ a :: b :: t
    have hne : sortBy pickLt (a :: b :: t) ≠ [] := sortBy_ne_nil (by simp)
    obtain ⟨y, ys, hys⟩ := List.exists_cons_of_ne_nil hne
    rw [hys, List.headD_cons]
    exact mem_sortBy.mp (hys ▸ List.mem_cons_self y ys)

/-! ## Helper lemmas: tier collection -/

theorem collectTiers_eq_filter (qL : String) (ts : List JiraTransition) :
    collectTiers qL ts =
      (ts.filter (isExactFor qL), ts.filter (isPfxFor qL),
        (ts.filter (isContFor qL)).map
          (fun t => (t, goIndex (goToLower t.Name) qL))) := by
  induction ts with
  | nil => simp [collectTiers]
  | cons u us ih =>
    simp only [collectTiers, ih, List.filter_cons]
    by_cases h1 : (goToLower u.Name == qL) = true
    · simp [isExactFor, isPfxFor, isContFor, h1]
    · by_cases h2 : goStartsWith (goToLower u.Name) qL = true
      · simp [isExactFor, isPfxFor, isContFor, h1, h2]
      · by_cases h3 : goContainsStr (goToLower u.Name) qL = true
        · simp [isExactFor, isPfxFor, isContFor, h1, h2, h3]
        · simp [isExactFor, isPfxFor, isContFor, h1, h2, h3]

theorem mem_exactTier {qL : String} {ts : List JiraTransition}
    {t : JiraTransition} :
    t ∈ (collectTiers qL ts).1 ↔ t ∈ ts ∧ goToLower t.Name = qL := by
  rw [collectTiers_eq_filter]
  simp [List.mem_filter, isExactFor]

theorem mem_pfxTier {qL : String} {ts : List JiraTransition}
    {t : JiraTransition} :
    t ∈ (collectTiers qL ts).2.1 ↔
      t ∈ ts ∧ ¬goToLower t.Name = qL ∧
        goStartsWith (goToLower t.Name) qL = true := by
  rw [collectTiers_eq_filter]
  simp [List.mem_filter, isPfxFor, isExactFor, and_assoc]

theorem mem_contTier {qL : String} {ts : List JiraTransition}
    {x : JiraTransition × Int} :
    x ∈ (collectTiers qL ts).2.2 ↔
      x.1 ∈ ts ∧ ¬goToLower x.1.Name = qL ∧
        goStartsWith (goToLower x.1.Name) qL = false ∧
        goContainsStr (goToLower x.1.Name) qL = true ∧
        x.2 = goIndex (goToLower x.1.Name) qL := by
  rw [collectTiers_eq_filter]
  constructor
  · intro hx
    simp only [List.mem_map] at hx
    obtain ⟨t, htf, rfl⟩ := hx
    obtain ⟨hmem, hcond⟩ := List.mem_filter.mp htf
    simp only [isContFor, isExactFor, Bool.and_eq_true, Bool.not_eq_true',
      beq_eq_false_iff_ne, ne_eq] at hcond
    exact ⟨hmem, hcond.1.1, hcond.1.2, hcond.2, rfl⟩
  · intro ⟨hmem, hne, hsw, hct, hsc⟩
    simp only [List.mem_map]
    refine ⟨x.1, List.mem_filter.mpr ⟨hmem, ?_⟩, ?_⟩
    · simp [isContFor, isExactFor, hne, hsw, hct]
    · cases x; simp_all

/-! ## Helper lemmas: substring containment and quoting -/

theorem indexOfChars_isSome_of_isPrefixOf {sub hay : List Char}
    (h : sub.isPrefixOf hay = true) : (indexOfChars sub hay).isSome = true := by
  cases hay <;> simp [indexOfChars, h]

theorem indexOfChars_parts (sub : List Char) :
    ∀ pre post : List Char,
      (indexOfChars sub (pre ++ sub ++ post)).isSome = true := by
  intro pre
  induction pre with
  | nil =>
    intro post
    refine indexOfChars_isSome_of_isPrefixOf ?_
    simp [List.isPrefixOf_iff_prefix]
  | cons x xs ih =>
    intro post
    have hshape : (x :: xs) ++ sub ++ post = x :: (xs ++ sub ++ post) := by
      simp
    rw [hshape]
    simp only [indexOfChars]
    by_cases hg : sub.isPrefixOf (x :: (xs ++ sub ++ post)) = true
    · rw [if_pos hg]; rfl
    · rw [if_neg hg]
      have h2 := ih post
      cases hi : indexOfChars sub (xs ++ sub ++ post) with
      | none => rw [hi] at h2; simp at h2
      | some n => rfl

theorem goContainsStr_of_parts (a b c : String) :
    goContainsStr (a ++ b ++ c) b = true := by
  have : (a ++ b ++ c).data = a.data ++ b.data ++ c.data := by
    simp [String.data_append]
  simp only [goContainsStr, this]
  exact indexOfChars_parts b.data a.data c.data

theorem goQuoteChar_plain {c : Char} (h : plainChar c = true) :
    goQuoteChar c = String.singleton c := by
  simp only [plainChar, Bool.and_eq_true, Bool.not_eq_true', beq_eq_false_iff_ne,
    ne_eq, decide_eq_true_eq] at h
  obtain ⟨⟨⟨hlo, hhi⟩, hq⟩, hb⟩ := h
  simp [goQuoteChar, hq, hb, hlo, hhi]

theorem goQuote_plain {s : String} (h : ∀ c ∈ s.data, plainChar c = true) :
    goQuote s = "\"" ++ s ++ "\"" := by
  have hjoin : ∀ l : List Char, (∀ c ∈ l, plainChar c = true) →
      String.join (l.map goQuoteChar) = String.mk l := by
    intro l
    induction l with
    | nil => intro _; rfl
    | cons c cs ih =>
      intro hl
      have hc := hl c (List.mem_cons_self c cs)
      have hcs := ih (fun d hd => hl d (List.mem_cons_of_mem c hd))
      have hstep : String.join ((c :: cs).map goQuoteChar) =
          goQuoteChar c ++ String.join (cs.map goQuoteChar) := by
        apply String.ext
        simp [String.data_join, String.data_append]
      rw [hstep, goQuoteChar_plain hc, hcs]
      apply String.ext
      simp [String.data_append, String.singleton]
  have hs : String.join (s.data.map goQuoteChar) = s := by
    have := hjoin s.data h
    cases s
    simpa using this
  simp only [goQuote, hs]

/-! ## Helper lemmas: matcher branches and pagination -/

/-- Exhaustive branch analysis of `matchTransition`. -/
theorem matchTransition_cases (ts : List JiraTransition) (q : String) :
    (goTrimSpace q = "" ∧ matchTransition ts q = .error "--status is required") ∨
    (goTrimSpace q ≠ "" ∧
      (collectTiers (goToLower (goTrimSpace q)) ts).1 ≠ [] ∧
      matchTransition ts q =
        .ok ⟨pickBestTransition (collectTiers (goToLower (goTrimSpace q)) ts).1,
          "exact", ""⟩) ∨
    (goTrimSpace q ≠ "" ∧
      (collectTiers (goToLower (goTrimSpace q)) ts).1 = [] ∧
      (collectTiers (goToLower (goTrimSpace q)) ts).2.1 ≠ [] ∧
      matchTransition ts q =
        .ok ⟨pickBestTransition (collectTiers (goToLower (goTrimSpace q)) ts).2.1,
          "prefix",
          ambiguityWarning (goTrimSpace q)
            (collectTiers (goToLower (goTrimSpace q)) ts).2.1
            (pickBestTransition (collectTiers (goToLower (goTrimSpace q)) ts).2.1)⟩) ∨
    (goTrimSpace q ≠ "" ∧
      (collectTiers (goToLower (goTrimSpace q)) ts).1 = [] ∧
      (collectTiers (goToLower (goTrimSpace q)) ts).2.1 = [] ∧
      (collectTiers (goToLower (goTrimSpace q)) ts).2.2 ≠ [] ∧
      matchTransition ts q =
        .ok ⟨pickBestTransition
            ((sortBy containsLt (collectTiers (goToLower (goTrimSpace q)) ts).2.2).map
              Prod.fst),
          "contains",
          ambiguityWarning (goTrimSpace q)
            ((sortBy containsLt (collectTiers (goToLower (goTrimSpace q)) ts).2.2).map
              Prod.fst)
            (pickBestTransition
              ((sortBy containsLt (collectTiers (goToLower (goTrimSpace q)) ts).2.2).map
                Prod.fst))⟩) ∨
    (goTrimSpace q ≠ "" ∧
      (collectTiers (goToLower (goTrimSpace q)) ts).1 = [] ∧
      (collectTiers (goToLower (goTrimSpace q)) ts).2.1 = [] ∧
      (collectTiers (goToLower (goTrimSpace q)) ts).2.2 = [] ∧
      matchTransition ts q = .error (noMatchMsg (goTrimSpace q) ts)) := by
  by_cases hq : goTrimSpace q = ""
  · exact Or.inl ⟨hq, by simp [matchTransition, hq]⟩
  · by_cases he : (collectTiers (goToLower (goTrimSpace q)) ts).1 = []
    · by_cases hp : (collectTiers (goToLower (goTrimSpace q)) ts).2.1 = []
      · by_cases hc : (collectTiers (goToLower (goTrimSpace q)) ts).2.2 = []
        · exact Or.inr (Or.inr (Or.inr (Or.inr
            ⟨hq, he, hp, hc, by simp [matchTransition, hq, he, hp, hc]⟩)))
        · exact Or.inr (Or.inr (Or.inr (Or.inl
            ⟨hq, he, hp, hc, by simp [matchTransition, hq, he, hp, hc]⟩)))
      · exact Or.inr (Or.inr (Or.inl
          ⟨hq, he, hp, by simp [matchTransition, hq, he, hp]⟩))
    · exact Or.inr (Or.inl ⟨hq, he, by simp [matchTransition, hq, he]⟩)

/-- The fuel supplied by `searchIssues` is not what stops the loop: once
`fuel` exceeds the remaining capacity `limit - all.length`, adding more
fuel does not change the result (every continuing iteration appends at
least one issue). -/
theorem searchLoop_fuel_high (f : Nat → String → Except String JiraSearchResponse)
    (limit : Nat) :
    ∀ (fuel : Nat) (all : List JiraIssue) (total : Int) (token : String),
      limit < all.length + fuel →
      searchLoop f limit fuel all total token =
        searchLoop f limit (fuel + 1) all total token := by
  intro fuel
  induction fuel with
  | zero =>
    intro all total token hfuel
    have hge : ¬all.length < limit := by omega
    simp [searchLoop, hge]
  | succ n ih =>
    intro all total token hfuel
    by_cases hlen : all.length < limit
    · show searchLoop f limit (n + 1) all total token =
        searchLoop f limit (n + 1 + 1) all total token
      rw [searchLoop, searchLoop]
      rw [if_pos hlen, if_pos hlen]
      cases hf : f (min (limit - all.length) 100) token with
      | error e => rfl
      | ok resp =>
        dsimp only
        by_cases hbrk : (resp.Issues.isEmpty || resp.NextPageToken == "") = true
        · rw [if_pos hbrk, if_pos hbrk]
        · rw [if_neg hbrk, if_neg hbrk]
          have hne : resp.Issues ≠ [] := by
            intro hnil
            apply hbrk
            simp [hnil]
          have hlen2 : 1 ≤ resp.Issues.length := by
            cases hi : resp.Issues with
            | nil => exact absurd hi hne
            | cons a l => simp
          apply ih
          simp only [List.length_append]
          omega
    · simp [searchLoop, hlen]

/-- What `searchIssues` returns, as a function of the loop's final state:
the accumulated list truncated to the limit, the last reported total, and
the has-more flag computed from the final token and the truncated
length. -/
theorem searchIssues_of_loop (f : Nat → String → Except String JiraSearchResponse)
    (limit : Nat) (all : List JiraIssue) (total : Int) (token : String)
    (h : searchLoop f limit (limit + 1) [] 0 "" = .ok (all, total, token)) :
    searchIssues f limit =
      .ok ⟨if limit < all.length then all.take limit else all, total,
        token != "" ||
          decide
            (((if limit < all.length then all.take limit else all).length : Int) <
              total)⟩ := by
  simp [searchIssues, h]

/-! ## Helper lemmas: the ambiguity warning text -/

theorem append_ne_empty_left {s t : String} (h : s ≠ "") : s ++ t ≠ "" := by
  intro hc
  apply h
  apply String.ext
  have hd := congrArg String.data hc
  rw [String.data_append] at hd
  exact (List.append_eq_nil.mp hd).1

theorem goContainsStr_of_eq_parts {s : String} (a b c : String)
    (h : s.data = a.data ++ b.data ++ c.data) : goContainsStr s b = true := by
  simp only [goContainsStr, h]
  exact indexOfChars_parts b.data a.data c.data

theorem ambiguityWarning_of_two {q : String} {cs : List JiraTransition}
    {sel : JiraTransition} (h : 2 ≤ cs.length) :
    ambiguityWarning q cs sel =
      "status " ++ goQuote q ++ " matched multiple transitions (" ++
        String.intercalate ", " (cs.map JiraTransition.Name) ++ "); using " ++
        goQuote sel.Name := by
  unfold ambiguityWarning
  rw [if_neg (by omega)]

theorem ambiguityWarning_singleton {q : String} {cs : List JiraTransition}
    {sel : JiraTransition} (h : cs.length = 1) :
    ambiguityWarning q cs sel = "" := by
  unfold ambiguityWarning
  rw [if_pos (by omega)]

theorem ambiguityWarning_facts (q : String) (cs : List JiraTransition)
    (sel : JiraTransition) (h : 2 ≤ cs.length) :
    ambiguityWarning q cs sel ≠ "" ∧
    goContainsStr (ambiguityWarning q cs sel) (goQuote q) = true ∧
    goContainsStr (ambiguityWarning q cs sel)
      (String.intercalate ", " (cs.map JiraTransition.Name)) = true ∧
    goContainsStr (ambiguityWarning q cs sel) (goQuote sel.Name) = true := by
  simp only [ambiguityWarning_of_two h]
  refine ⟨?_, ?_, ?_, ?_⟩
  · apply append_ne_empty_left
    apply append_ne_empty_left
    apply append_ne_empty_left
    apply append_ne_empty_left
    apply append_ne_empty_left
    decide
  · exact goContainsStr_of_eq_parts "status " (goQuote q)
      (" matched multiple transitions (" ++
        String.intercalate ", " (cs.map JiraTransition.Name) ++ "); using " ++
        goQuote sel.Name)
      (by simp [String.data_append])
  · exact goContainsStr_of_eq_parts
      ("status " ++ goQuote q ++ " matched multiple transitions (")
      (String.intercalate ", " (cs.map JiraTransition.Name))
      ("); using " ++ goQuote sel.Name)
      (by simp [String.data_append])
  · exact goContainsStr_of_eq_parts
      ("status " ++ goQuote q ++ " matched multiple transitions (" ++
        String.intercalate ", " (cs.map JiraTransition.Name) ++ "); using ")
      (goQuote sel.Name) ""
      (by simp [String.data_append])

/-! ## Claim theorems -/

/-- C5: for every input transition list and query, when `matchTransition`
succeeds the selected transition is an element of the input list (equal to
one of the transitions passed in, including its id), never a synthesized
or modified value. -/
theorem C5_selected_mem (ts : List JiraTransition) (q : String)
    (r : MatchResult) (h : matchTransition ts q = .ok r) :
    r.transition ∈ ts := by
  rcases matchTransition_cases ts q with
    ⟨_, he⟩ | ⟨_, hne, he⟩ | ⟨_, _, hne, he⟩ | ⟨_, _, _, hne, he⟩ |
    ⟨_, _, _, _, he⟩
  · rw [he] at h; simp at h
  · rw [he] at h
    injection h with h2
    subst h2
    exact (mem_exactTier.mp (pickBestTransition_mem hne)).1
  · rw [he] at h
    injection h with h2
    subst h2
    exact (mem_pfxTier.mp (pickBestTransition_mem hne)).1
  · rw [he] at h
    injection h with h2
    subst h2
    have hsne : sortBy containsLt
        (collectTiers (goToLower (goTrimSpace q)) ts).2.2 ≠ [] :=
      sortBy_ne_nil hne
    have hcne : (sortBy containsLt
        (collectTiers (goToLower (goTrimSpace q)) ts).2.2).map Prod.fst ≠ [] := by
      intro hcontra
      exact hsne (List.map_eq_nil_iff.mp hcontra)
    have hp := pickBestTransition_mem hcne
    obtain ⟨x, hx, hfst⟩ := List.mem_map.mp hp
    have hx2 := mem_sortBy.mp hx
    have := (mem_contTier.mp hx2).1
    show pickBestTransition
        ((sortBy containsLt
          (collectTiers (goToLower (goTrimSpace q)) ts).2.2).map Prod.fst) ∈ ts
    rw [← hfst]
    exact this
  · rw [he] at h; simp at h

/-- Witness for C5 at a concrete run: the selected transition of a
one-element list is that element. -/
theorem C5_selected_mem_witness :
    (MatchResult.mk ⟨"1", "Done", none⟩ "exact" "").transition ∈
      [(⟨"1", "Done", none⟩ : JiraTransition)] :=
  C5_selected_mem _ "Done" _ (by decide)

/-- C4: for every transition list containing at least one transition whose
name equals the (trimmed, non-blank) query under case-insensitive
comparison, `matchTransition` returns such a transition with
`matchedBy = "exact"` and an empty warning, regardless of any other
transitions in the list. -/
theorem C4_exact_tier_wins (ts : List JiraTransition) (q : String)
    (h0 : goTrimSpace q ≠ "")
    (h1 : ∃ t ∈ ts, goToLower t.Name = goToLower (goTrimSpace q)) :
    ∃ r, matchTransition ts q = .ok r ∧ r.matchedBy = "exact" ∧
      r.warning = "" ∧ r.transition ∈ ts ∧
      goToLower r.transition.Name = goToLower (goTrimSpace q) := by
  obtain ⟨t, hts, hfold⟩ := h1
  have hmem : t ∈ (collectTiers (goToLower (goTrimSpace q)) ts).1 :=
    mem_exactTier.mpr ⟨hts, hfold⟩
  have hne := List.ne_nil_of_mem hmem
  rcases matchTransition_cases ts q with
    ⟨hq, _⟩ | ⟨_, hne2, he⟩ | ⟨_, hnil, _, _⟩ | ⟨_, hnil, _, _, _⟩ |
    ⟨_, hnil, _, _, _⟩
  · exact absurd hq h0
  · exact ⟨_, he, rfl, rfl,
      (mem_exactTier.mp (pickBestTransition_mem hne2)).1,
      (mem_exactTier.mp (pickBestTransition_mem hne2)).2⟩
  · exact absurd hnil hne
  · exact absurd hnil hne
  · exact absurd hnil hne

/-- Witness for C4 at a concrete run: an exact match beats a same-list
name-leading candidate and produces no warning. -/
theorem C4_exact_tier_wins_witness :
    ∃ r, matchTransition
        [⟨"1", "Done", none⟩, ⟨"2", "Done (QA)", none⟩] "done" = .ok r ∧
      r.matchedBy = "exact" ∧ r.warning = "" ∧
      r.transition ∈ [⟨"1", "Done", none⟩, ⟨"2", "Done (QA)", none⟩] ∧
      goToLower r.transition.Name = goToLower (goTrimSpace "done") :=
  C4_exact_tier_wins _ "done" (by decide)
    ⟨⟨"1", "Done", none⟩, by decide, by decide⟩

/-- C10: each transition is collected into at most one tier, the highest
it qualifies for: members of the exact tier fold-equal the query, members
of the other tiers do not (and contains members do not lead with the
query), so the three candidate lists are pairwise disjoint. -/
theorem C10_tiers_disjoint (qL : String) (ts : List JiraTransition) :
    (∀ t ∈ (collectTiers qL ts).1, goToLower t.Name = qL) ∧
    (∀ t ∈ (collectTiers qL ts).2.1,
      goToLower t.Name ≠ qL ∧ goStartsWith (goToLower t.Name) qL = true) ∧
    (∀ x ∈ (collectTiers qL ts).2.2,
      goToLower x.1.Name ≠ qL ∧
        goStartsWith (goToLower x.1.Name) qL = false) ∧
    (∀ t ∈ (collectTiers qL ts).1, t ∉ (collectTiers qL ts).2.1) ∧
    (∀ t ∈ (collectTiers qL ts).1, ∀ s : Int,
      (t, s) ∉ (collectTiers qL ts).2.2) ∧
    (∀ t ∈ (collectTiers qL ts).2.1, ∀ s : Int,
      (t, s) ∉ (collectTiers qL ts).2.2) := by
  refine ⟨?_, ?_, ?_, ?_, ?_, ?_⟩
  · intro t ht
    exact (mem_exactTier.mp ht).2
  · intro t ht
    exact ⟨(mem_pfxTier.mp ht).2.1, (mem_pfxTier.mp ht).2.2⟩
  · intro x hx
    exact ⟨(mem_contTier.mp hx).2.1, (mem_contTier.mp hx).2.2.1⟩
  · intro t ht hc
    exact (mem_pfxTier.mp hc).2.1 (mem_exactTier.mp ht).2
  · intro t ht s hc
    exact (mem_contTier.mp hc).2.1 (mem_exactTier.mp ht).2
  · intro t ht s hc
    have h1 := (mem_pfxTier.mp ht).2.2
    have h2 := (mem_contTier.mp hc).2.2.1
    simp only [h1] at h2
    cases h2

/-- Witness for C10 at a concrete run: the exactly-matching transition is
not in the middle tier even though its lowered name is led by the
query. -/
theorem C10_tiers_disjoint_witness :
    (⟨"1", "Done", none⟩ : JiraTransition) ∉
      (collectTiers "done" [⟨"1", "Done", none⟩, ⟨"2", "Download", none⟩]).2.1 :=
  (C10_tiers_disjoint "done" _).2.2.2.1 ⟨"1", "Done", none⟩ (by decide)

/-- C3 (amended): when `matchTransition` succeeds, the exact tier never
produces a warning; on the other two tiers the warning is the
`ambiguityWarning` text over the winning-tier candidate list in its order
just before the final tie-break (collection order for the middle tier,
score-sorted order for the contains tier): empty for a single candidate,
and for two or more candidates non-empty and containing the Go-quoted
trimmed query, the comma-joined candidate names in that order, and the
Go-quoted selected name. -/
theorem C3_warning_spec (ts : List JiraTransition) (q : String)
    (r : MatchResult) (h : matchTransition ts q = .ok r) :
    (r.matchedBy = "exact" → r.warning = "") ∧
    (r.matchedBy ≠ "exact" →
      r.warning =
        ambiguityWarning (goTrimSpace q) (winningCandidates ts (goTrimSpace q))
          r.transition ∧
      ((winningCandidates ts (goTrimSpace q)).length = 1 → r.warning = "") ∧
      (2 ≤ (winningCandidates ts (goTrimSpace q)).length →
        r.warning ≠ "" ∧
        goContainsStr r.warning (goQuote (goTrimSpace q)) = true ∧
        goContainsStr r.warning
          (String.intercalate ", "
            ((winningCandidates ts (goTrimSpace q)).map JiraTransition.Name)) =
          true ∧
        goContainsStr r.warning (goQuote r.transition.Name) = true)) := by
  rcases matchTransition_cases ts q with
    ⟨_, he⟩ | ⟨_, hne, he⟩ | ⟨_, hnil, hne, he⟩ | ⟨_, hnil, hp, hne, he⟩ |
    ⟨_, _, _, _, he⟩
  · rw [he] at h; simp at h
  · rw [he] at h
    injection h with h2
    subst h2
    exact ⟨fun _ => rfl, fun hne2 => absurd rfl hne2⟩
  · rw [he] at h
    injection h with h2
    subst h2
    have hw : winningCandidates ts (goTrimSpace q) =
        (collectTiers (goToLower (goTrimSpace q)) ts).2.1 := by
      simp [winningCandidates, hnil, hne]
    have hstr : ("prefix" : String) ≠ "exact" := by decide
    refine ⟨fun habs => absurd habs hstr, fun _ => ⟨?_, ?_, ?_⟩⟩
    · rw [hw]
    · intro h1
      rw [hw] at h1
      exact ambiguityWarning_singleton h1
    · intro h2
      rw [hw] at h2 ⊢
      exact ambiguityWarning_facts _ _ _ h2
  · rw [he] at h
    injection h with h2
    subst h2
    have hw : winningCandidates ts (goTrimSpace q) =
        (sortBy containsLt
          (collectTiers (goToLower (goTrimSpace q)) ts).2.2).map Prod.fst := by
      simp [winningCandidates, hnil, hp]
    have hstr : ("contains" : String) ≠ "exact" := by decide
    refine ⟨fun habs => absurd habs hstr, fun _ => ⟨?_, ?_, ?_⟩⟩
    · rw [hw]
    · intro h1
      rw [hw] at h1
      exact ambiguityWarning_singleton h1
    · intro h2
      rw [hw] at h2 ⊢
      exact ambiguityWarning_facts _ _ _ h2
  · rw [he] at h; simp at h

/-- Counterexample to C3 as stated: a winning exact tier with two
candidates (names equal to the query up to case) yields an empty warning,
not a populated one. -/
theorem C3_exact_no_warning_cex :
    matchTransition [⟨"1", "Done", none⟩, ⟨"2", "DONE", none⟩] "done" =
      .ok ⟨⟨"1", "Done", none⟩, "exact", ""⟩ ∧
    (winningCandidates [⟨"1", "Done", none⟩, ⟨"2", "DONE", none⟩]
      (goTrimSpace "done")).length = 2 := by decide

/-- Witness for C3 at a concrete run: a two-candidate middle tier
produces a non-empty warning. -/
theorem C3_warning_spec_witness :
    (MatchResult.mk ⟨"10", "Done", none⟩ "prefix"
      "status \"Do\" matched multiple transitions (Done, Done (QA)); using \"Done\"").warning ≠
      "" :=
  (((C3_warning_spec [⟨"10", "Done", none⟩, ⟨"11", "Done (QA)", none⟩] "Do" _
    (by decide)).2 (by decide)).2.2 (by decide)).1

/-- C2 (amended): in the contains tier every candidate is scored by the
0-based index of the first occurrence of the lowered query in the lowered
name, and the candidate list is sorted so that scores ascend (the list
head has a minimal index and this order dictates the warning text); the
selected transition, however, is chosen from those candidates by the
final tie-break of `pickBestTransition` (name length, lowercase name, id)
and need not carry a minimal occurrence index. -/
theorem C2_contains_score_sorted (ts : List JiraTransition) (q : String)
    (r : MatchResult) (h : matchTransition ts q = .ok r)
    (hby : r.matchedBy = "contains") :
    (∀ x ∈ (collectTiers (goToLower (goTrimSpace q)) ts).2.2,
      x.2 = goIndex (goToLower x.1.Name) (goToLower (goTrimSpace q))) ∧
    (sortBy containsLt
      (collectTiers (goToLower (goTrimSpace q)) ts).2.2).Pairwise
      (fun a b => a.2 ≤ b.2) ∧
    r.transition =
      pickBestTransition
        ((sortBy containsLt
          (collectTiers (goToLower (goTrimSpace q)) ts).2.2).map Prod.fst) := by
  refine ⟨?_, ?_, ?_⟩
  · intro x hx
    exact (mem_contTier.mp hx).2.2.2.2
  · apply pairwise_sortBy
    · intro a b c hab hbc
      exact le_trans hab hbc
    · intro a b hlt
      by_cases hne : a.2 = b.2
      · exact le_of_eq hne
      · have heq : containsLt a b = decide (a.2 < b.2) := by
          simp [containsLt, hne]
        rw [heq] at hlt
        exact le_of_lt (of_decide_eq_true hlt)
    · intro a b hlt
      by_cases hne : a.2 = b.2
      · exact le_of_eq hne.symm
      · have heq : containsLt a b = decide (a.2 < b.2) := by
          simp [containsLt, hne]
        rw [heq] at hlt
        have := of_decide_eq_false hlt
        omega
  · rcases matchTransition_cases ts q with
      ⟨_, he⟩ | ⟨_, _, he⟩ | ⟨_, _, _, he⟩ | ⟨_, _, _, _, he⟩ | ⟨_, _, _, _, he⟩
    · rw [he] at h; simp at h
    · rw [he] at h
      injection h with h2
      subst h2
      exact absurd hby (show ("exact" : String) ≠ "contains" by decide)
    · rw [he] at h
      injection h with h2
      subst h2
      exact absurd hby (show ("prefix" : String) ≠ "contains" by decide)
    · rw [he] at h
      injection h with h2
      subst h2
      rfl
    · rw [he] at h; simp at h

/-- Counterexample to C2 as stated: with query "z" over names "azcc"
(occurrence index 1) and "bbz" (occurrence index 2), the contains tier
wins and the selected transition is "bbz", whose index 2 is strictly
larger than the other candidate's index 1. -/
theorem C2_min_index_cex :
    matchTransition [⟨"1", "azcc", none⟩, ⟨"2", "bbz", none⟩] "z" =
      .ok ⟨⟨"2", "bbz", none⟩, "contains",
        "status \"z\" matched multiple transitions (azcc, bbz); using \"bbz\""⟩ ∧
    goIndex (goToLower "azcc") (goToLower "z") = 1 ∧
    goIndex (goToLower "bbz") (goToLower "z") = 2 := by decide

/-- Witness for C2 at a concrete run: the selected transition equals the
final tie-break minimum of the score-sorted candidate list. -/
theorem C2_contains_score_sorted_witness :
    (MatchResult.mk ⟨"2", "bbz", none⟩ "contains"
      "status \"z\" matched multiple transitions (azcc, bbz); using \"bbz\"").transition =
      pickBestTransition
        ((sortBy containsLt
          (collectTiers (goToLower (goTrimSpace "z"))
            [⟨"1", "azcc", none⟩, ⟨"2", "bbz", none⟩]).2.2).map Prod.fst) :=
  (C2_contains_score_sorted [⟨"1", "azcc", none⟩, ⟨"2", "bbz", none⟩] "z" _
    (by decide) rfl).2.2

/-- C7 (amended): for every non-blank query matching no transition at any
tier, `matchTransition` fails with the `NoMatch` message, which contains
every available transition name comma-joined in input order and the
Go-quoted trimmed query; the trimmed query appears verbatim whenever all
its characters survive `%q` unescaped. -/
theorem C7_noMatch_error (ts : List JiraTransition) (q : String)
    (h0 : goTrimSpace q ≠ "")
    (h1 : collectTiers (goToLower (goTrimSpace q)) ts = ([], [], [])) :
    matchTransition ts q = .error (noMatchMsg (goTrimSpace q) ts) ∧
    goContainsStr (noMatchMsg (goTrimSpace q) ts)
      (String.intercalate ", " (ts.map JiraTransition.Name)) = true ∧
    goContainsStr (noMatchMsg (goTrimSpace q) ts)
      (goQuote (goTrimSpace q)) = true ∧
    ((∀ c ∈ (goTrimSpace q).data, plainChar c = true) →
      goContainsStr (noMatchMsg (goTrimSpace q) ts) (goTrimSpace q) = true) := by
  refine ⟨?_, ?_, ?_, ?_⟩
  · rcases matchTransition_cases ts q with
      ⟨hq, _⟩ | ⟨_, hne, _⟩ | ⟨_, _, hne, _⟩ | ⟨_, _, _, hne, _⟩ |
      ⟨_, _, _, _, he⟩
    · exact absurd hq h0
    · rw [h1] at hne; simp at hne
    · rw [h1] at hne; simp at hne
    · rw [h1] at hne; simp at hne
    · exact he
  · exact goContainsStr_of_eq_parts
      ("no transition matching " ++ goQuote (goTrimSpace q) ++
        "; available transitions: ")
      (String.intercalate ", " (ts.map JiraTransition.Name)) ""
      (by simp [noMatchMsg, String.data_append])
  · exact goContainsStr_of_eq_parts "no transition matching "
      (goQuote (goTrimSpace q))
      ("; available transitions: " ++
        String.intercalate ", " (ts.map JiraTransition.Name))
      (by simp [noMatchMsg, String.data_append])
  · intro hplain
    refine goContainsStr_of_eq_parts ("no transition matching " ++ "\"")
      (goTrimSpace q)
      ("\"" ++ "; available transitions: " ++
        String.intercalate ", " (ts.map JiraTransition.Name)) ?_
    rw [noMatchMsg, goQuote_plain hplain]
    simp [String.data_append]

/-- Counterexample to C7 as stated: the message renders the query through
the `%q` verb, so a query containing a double quote does not appear in
the message verbatim. -/
theorem C7_quoted_query_cex :
    matchTransition [⟨"1", "Open", none⟩] "a\"b" =
      .error "no transition matching \"a\\\"b\"; available transitions: Open" ∧
    goContainsStr "no transition matching \"a\\\"b\"; available transitions: Open"
      "a\"b" = false := by decide

/-- Witness for C7 at a concrete run: an unmatched plain query produces
the `NoMatch` message. -/
theorem C7_noMatch_error_witness :
    matchTransition [⟨"1", "Open", none⟩] "zzz" =
      .error (noMatchMsg (goTrimSpace "zzz") [⟨"1", "Open", none⟩]) :=
  (C7_noMatch_error [⟨"1", "Open", none⟩] "zzz" (by decide) (by decide)).1

/-- C1 (amended): for every pagination run of `searchIssues` that
succeeds, the returned has-more flag equals: a continuation cursor is
still pending after the last fetch, OR the item count after truncation to
the requested limit (equivalently, the minimum of the accumulated count
and the limit) is less than the last reported total. -/
theorem C1_hasMore_post_truncation
    (f : Nat → String → Except String JiraSearchResponse) (limit : Nat)
    (all : List JiraIssue) (total : Int) (token : String)
    (h : searchLoop f limit (limit + 1) [] 0 "" = .ok (all, total, token)) :
    ∃ res, searchIssues f limit = .ok res ∧
      res.Issues = (if limit < all.length then all.take limit else all) ∧
      res.Issues.length = min all.length limit ∧
      res.HasMore =
        (token != "" || decide (((min all.length limit : Nat) : Int) < total)) := by
  have hlen : (if limit < all.length then all.take limit else all).length =
      min all.length limit := by
    by_cases hlt : limit < all.length
    · simp only [if_pos hlt, List.length_take]
      omega
    · simp only [if_neg hlt]
      omega
  refine ⟨_, searchIssues_of_loop f limit all total token h, rfl, hlen, ?_⟩
  show (token != "" || decide ((((if limit < all.length then all.take limit
      else all).length : Nat) : Int) < total)) = _
  rw [hlen]

/-- Counterexample to C1 as stated: one overshooting page (two items,
total 2, no token) under limit 1 makes the code report `HasMore = true`
(the truncated count 1 is below the total), while the spec's formula over
the pre-truncation count 2 yields false. -/
theorem C1_pre_truncation_cex :
    searchLoop overshootFetch 1 2 [] 0 "" =
      .ok ([⟨"ISS-1"⟩, ⟨"ISS-2"⟩], 2, "") ∧
    searchIssues overshootFetch 1 = .ok ⟨[⟨"ISS-1"⟩], 2, true⟩ ∧
    specHasMore "" ([⟨"ISS-1"⟩, ⟨"ISS-2"⟩] : List JiraIssue).length 2 = false := by
  decide

/-- Witness for C1 at a concrete run: a single empty page with total 0
yields an empty result with `HasMore = false`. -/
theorem C1_hasMore_post_truncation_witness :
    ∃ res, searchIssues emptyFetch 1 = .ok res ∧
      res.Issues =
        (if 1 < ([] : List JiraIssue).length then ([] : List JiraIssue).take 1
         else ([] : List JiraIssue)) ∧
      res.Issues.length = min ([] : List JiraIssue).length 1 ∧
      res.HasMore =
        (("" : String) != "" ||
          decide (((min ([] : List JiraIssue).length 1 : Nat) : Int) < (0 : Int))) :=
  C1_hasMore_post_truncation emptyFetch 1 [] 0 "" (by decide)

/-- C6: for every page source and positive requested limit, the item list
returned by a successful `searchIssues` run has length at most the
requested limit, whatever sequence of pages (including overshooting
pages) the source returns. -/
theorem C6_length_le_limit
    (f : Nat → String → Except String JiraSearchResponse) (limit : Nat)
    (res : SearchIssuesResult) (_hpos : 0 < limit)
    (h : searchIssues f limit = .ok res) : res.Issues.length ≤ limit := by
  unfold searchIssues at h
  cases hl : searchLoop f limit (limit + 1) [] 0 "" with
  | error e => rw [hl] at h; simp at h
  | ok v =>
    obtain ⟨all, total, token⟩ := v
    rw [hl] at h
    dsimp only at h
    injection h with h2
    subst h2
    show (if limit < all.length then all.take limit else all).length ≤ limit
    by_cases hlt : limit < all.length
    · simp only [if_pos hlt, List.length_take]
      omega
    · simp only [if_neg hlt]
      omega

/-- Witness for C6 at a concrete run: an overshooting page under limit 1
still yields exactly one item. -/
theorem C6_length_le_limit_witness :
    (SearchIssuesResult.mk [⟨"ISS-1"⟩] 2 true).Issues.length ≤ 1 :=
  C6_length_le_limit overshootFetch 1 _ (by decide) (by decide)

/-- C8 (amended): a `listItem` node that has a content array appends
exactly one trailing newline after its own extracted content (text plus
children), and its parent inserts no additional block-separator newline
after it (`listItem` is not a block-level type); a `listItem` node whose
content field is missing or not an array returns its text without the
trailing newline. -/
theorem C8_listItem_newline (tx : Option String) (cs : AdfList) :
    adfExtract (some "listItem") tx (.arr cs) =
      (tx.getD "" ++ adfExtractList cs) ++ "\n" ∧
    adfExtract (some "listItem") tx .missing = tx.getD "" ∧
    (∀ notLast : Bool,
      adfExtractChild (.vobj (some "listItem") tx (.arr cs)) notLast =
        adfExtract (some "listItem") tx (.arr cs)) := by
  refine ⟨?_, rfl, ?_⟩
  · show tx.getD "" ++ adfExtractList cs ++
      (if (some "listItem" : Option String) == some "listItem" then "\n"
       else "") = _
    rfl
  · intro notLast
    show adfExtract (some "listItem") tx (.arr cs) ++
      (if isBlockType (some "listItem") && notLast then "\n" else "") = _
    have hb : isBlockType (some "listItem") = false := by decide
    rw [hb]
    simp

/-- Counterexample to C8 as stated: a `listItem` node without a content
array produces its own text with no trailing newline (the extractor
returns before the newline logic). -/
theorem C8_missing_content_cex :
    adfExtract (some "listItem") (some "x") .missing = "x" ∧
    adfExtract (some "listItem") (some "x") .missing ≠ "x" ++ "\n" := by
  decide

/-- C9: `formatDate` is total: when neither accepted timestamp pattern
parses the input, a string of at least ten characters degrades to its
first ten characters and a shorter one is returned unchanged; when a
pattern parses, the result is the rendered `YYYY-MM-DD` calendar date. -/
theorem C9_formatDate_total (s : String) :
    (parseTimestamp true s = none → parseTimestamp false s = none →
      formatDate s =
        if 10 ≤ s.length then String.mk (s.data.take 10) else s) ∧
    (∀ ymd, parseTimestamp true s = some ymd → formatDate s = formatYMD ymd) ∧
    (∀ ymd, parseTimestamp true s = none → parseTimestamp false s = some ymd →
      formatDate s = formatYMD ymd) := by
  by_cases hs : s = ""
  · subst hs
    refine ⟨fun _ _ => by decide, ?_, ?_⟩
    · intro ymd hy
      simp [parseTimestamp, readNum4] at hy
    · intro ymd _ hy
      simp [parseTimestamp, readNum4] at hy
  · have hb : (s == "") = false := beq_eq_false_iff_ne.mpr hs
    refine ⟨?_, ?_, ?_⟩
    · intro h1 h2
      simp [formatDate, hb, h1, h2]
    · intro ymd h1
      simp [formatDate, hb, h1]
    · intro ymd h1 h2
      simp [formatDate, hb, h1, h2]

/-- Witness for C9 at concrete runs: a malformed twelve-character string
degrades to its first ten characters. -/
theorem C9_formatDate_total_witness :
    formatDate "not-a-date!!" =
      (if 10 ≤ ("not-a-date!!" : String).length then
        String.mk (("not-a-date!!" : String).data.take 10)
       else "not-a-date!!") :=
  (C9_formatDate_total "not-a-date!!").1 (by decide) (by decide)

/-! ## Sanity checks

The first three reproduce the repository's Go unit tests
(`TestMatchTransitionExactWins`, `TestMatchTransitionPrefixAmbiguityWarns`,
`TestMatchTransitionNoMatchIncludesAvailable`), the fourth the two-page
pagination test (`TestSearchIssuesReturnsPaginationMetadata`), the rest
the extractor and date examples of the spec. -/

example :
    matchTransition [⟨"1", "Done (QA)", none⟩, ⟨"2", "Done", none⟩] "Done" =
      .ok ⟨⟨"2", "Done", none⟩, "exact", ""⟩ := by decide

example :
    matchTransition [⟨"10", "Done", none⟩, ⟨"11", "Done (QA)", none⟩] "Do" =
      .ok ⟨⟨"10", "Done", none⟩, "prefix",
        "status \"Do\" matched multiple transitions (Done, Done (QA)); using \"Done\""⟩ := by
  decide

example :
    matchTransition [⟨"1", "In Progress", none⟩, ⟨"2", "Done", none⟩] "Blocked" =
      .error "no transition matching \"Blocked\"; available transitions: In Progress, Done" := by
  decide

example :
    searchIssues
      (fun _ token =>
        if token == "" then
          .ok ⟨5, [⟨"PROJ-1"⟩, ⟨"PROJ-2"⟩], "page-2"⟩
        else .ok ⟨5, [], ""⟩)
      2 =
    .ok ⟨[⟨"PROJ-1"⟩, ⟨"PROJ-2"⟩], 5, true⟩ := by decide

example : adfToText none = "" := by decide

example : adfToText (some (.vstr "plain string")) = "plain string" := by decide

example :
    adfToText
      (some (.vobj (some "doc") none
        (.arr (.acons
          (.vobj (some "paragraph") none (.arr (.acons (.vobj none (some "A") .missing) .anil)))
          (.acons
            (.vobj (some "paragraph") none (.arr (.acons (.vobj none (some "B") .missing) .anil)))
            .anil))))) = "A\nB" := by decide

example : formatDate "2026-10-12T05:06:07.123+0200" = "2026-10-12" := by decide

example : formatDate "2026-02-28T23:59:59-0700" = "2026-02-28" := by decide

example : formatDate "2026-13-01T00:00:00.000+0000" = "2026-13-01" := by decide

example : formatDate "bad" = "bad" := by decide

end Jiractl
